import Mathlib

/-!
Shallow embedding of the ts-data-grid repository core: the sort engine of
src/src/sort.ts and the viewport geometry and sort-order state machine of
the grid module (src/unnamed/part_000), together with theorems checking the
specification claims against these definitions.

JavaScript values that flow through the sort engine are modelled by the
inductive type Value, restricted to strings, integer numerics, null and
undefined; rows are association lists from property names to values.
Array.prototype.sort is modelled by a stable insertion sort, matching the
ECMAScript requirement that sort be stable. Mutation of arrays passed by
reference is modelled by an explicit store of arrays addressed by handles.
-/

namespace DataGrid

/-- Model of a JavaScript value as it flows through the sort engine:
a string, an integer numeric, null, or undefined. (Non-integer numerics
and other object types are outside the model.) -/
inductive Value where
  | str : String → Value
  | num : Int → Value
  | null : Value
  | undef : Value
deriving DecidableEq

/-- Model of a row object: an association list from property names to
values; a property absent from the list reads as undefined. -/
abbrev Row := List (String × Value)

/-- Model of the JavaScript property read row[p]: the first binding of p,
or undefined when p is absent. -/
def rowGet (row : Row) (p : String) : Value :=
  match row.find? (fun kv => kv.1 == p) with
  | some kv => kv.2
  | none => Value.undef

/-- Model of a column value accessor, which in the source is either a
property name (a string) or a function of the row; getCellValue and
getCellSortValue branch on typeof to distinguish the two. -/
inductive Accessor where
  | propName : String → Accessor
  | func : (Row → Value) → Accessor

/-- Application of an accessor to a row, mirroring the typeof dispatch of
src/src/sort.ts: a function accessor is called, a property-name accessor
is read off the row. -/
def applyAccessor (a : Accessor) (row : Row) : Value :=
  match a with
  | .propName p => rowGet row p
  | .func f => f row

/-- Model of the per-column order tag, the source type
SortOrder = ascending | descending | undefined. -/
inductive SortOrder where
  | ascending : SortOrder
  | descending : SortOrder
  | undef : SortOrder
deriving DecidableEq

/-- Model of the source interface FieldSortOrder: a column key paired with
an order tag. -/
structure FieldSortOrder where
  key : String
  order : SortOrder
deriving DecidableEq

/-- Model of the source type TableSortOrder. -/
abbrev TableSortOrder := List FieldSortOrder

/-- Model of the source interface GridColumn. The optional
reverseSortOrder flag is a Bool, with false standing for an absent or
falsy flag; sortValue is optional. -/
structure GridColumn where
  key : String
  property : Accessor
  sortValue : Option Accessor := none
  reverseSortOrder : Bool := false
  width : ℚ := 0
  label : String := ""

/-- Base collation key of a character under the en locale at base
sensitivity, restricted to ASCII: upper-case letters fold onto their
lower-case counterparts, every other character is its own key. -/
def charBaseKey (c : Char) : Nat :=
  if 65 ≤ c.toNat ∧ c.toNat ≤ 90 then c.toNat + 32 else c.toNat

/-- Lexicographic comparison of character lists by base collation key. -/
def baseCompareChars : List Char → List Char → Int
  | [], [] => 0
  | [], _ :: _ => -1
  | _ :: _, [] => 1
  | a :: as, b :: bs =>
    if charBaseKey a < charBaseKey b then -1
    else if charBaseKey b < charBaseKey a then 1
    else baseCompareChars as bs

/-- Model of the host call a.localeCompare(b, en, sensitivity base) used
by compare in src/src/sort.ts, restricted to ASCII strings: characters
compare by base collation key, so case differences do not separate
strings. -/
def localeCompareEnBase (s t : String) : Int :=
  baseCompareChars s.data t.data

/-- Numeric value of an ASCII digit character, or none. -/
def digitVal (c : Char) : Option Nat :=
  if 48 ≤ c.toNat ∧ c.toNat ≤ 57 then some (c.toNat - 48) else none

/-- Accumulating parse of a digit tail. -/
def parseDigitsAux : List Char → Nat → Option Nat
  | [], acc => some acc
  | c :: cs, acc =>
    match digitVal c with
    | some d => parseDigitsAux cs (acc * 10 + d)
    | none => none

/-- Parse of a non-empty all-digit character list, none otherwise. -/
def parseDigits : List Char → Option Nat
  | [] => none
  | c :: cs =>
    match digitVal c with
    | some d => parseDigitsAux cs d
    | none => none

/-- Model of the ECMAScript ToNumber conversion on strings, restricted to
optionally negated decimal integer literals; none stands for NaN. The
empty string converts to 0; character code 45 is the minus sign. -/
def strToNumber (s : String) : Option Int :=
  match s.data with
  | [] => some 0
  | c :: rest =>
    if c.toNat = 45 then (parseDigits rest).map (fun n => -(n : Int))
    else (parseDigits (c :: rest)).map (fun n => (n : Int))

/-- Model of the ECMAScript ToNumber conversion on the modelled values;
none stands for NaN. -/
def toNumber : Value → Option Int
  | .num n => some n
  | .null => some 0
  | .undef => none
  | .str s => strToNumber s

/-- Ordinal (code unit) comparison of character lists, used by the
relational operators when both operands are strings. -/
def charListLt : List Char → List Char → Bool
  | [], [] => false
  | [], _ :: _ => true
  | _ :: _, [] => false
  | a :: as, b :: bs =>
    if a.toNat < b.toNat then true
    else if b.toNat < a.toNat then false
    else charListLt as bs

/-- Model of the JavaScript relational operator a < b on the modelled
values: two strings compare ordinally, otherwise both sides convert via
ToNumber and any NaN makes the comparison false. -/
def jsLt (a b : Value) : Bool :=
  match a, b with
  | .str s, .str t => charListLt s.data t.data
  | a, b =>
    match toNumber a, toNumber b with
    | some x, some y => decide (x < y)
    | _, _ => false

/-- Model of the JavaScript relational operator a > b, which evaluates as
b < a on the modelled (pure) values. -/
def jsGt (a b : Value) : Bool := jsLt b a

/-- Whether a value is a string, mirroring the typeof guard of compare. -/
def Value.isStr : Value → Bool
  | .str _ => true
  | _ => false

/-- Embedding of getCellValue from src/src/sort.ts: apply the
display-value accessor (function call or property read per typeof) and
substitute the empty string for null or undefined. -/
def getCellValue (row : Row) (column : GridColumn) : Value :=
  let value := applyAccessor column.property row
  if value = Value.null ∨ value = Value.undef then Value.str "" else value

/-- Embedding of getCellSortValue from src/src/sort.ts: when the column
has no sortValue accessor, fall back to getCellValue; otherwise apply the
sortValue accessor (function call or property read per typeof) and return
its raw result. -/
def getCellSortValue (row : Row) (column : GridColumn) : Value :=
  match column.sortValue with
  | none => getCellValue row column
  | some sv => applyAccessor sv row

/-- Embedding of compare from src/src/sort.ts: two strings compare by the
locale-aware base-sensitivity host comparison; otherwise the relational
operators decide, with -1 for a < b, 1 for a > b and 0 otherwise. -/
def compare (a b : Value) : Int :=
  match a, b with
  | .str s, .str t => localeCompareEnBase s t
  | a, b => if jsLt a b then -1 else if jsGt a b then 1 else 0

/-- Embedding of the loop body of the comparator inside sort in
src/src/sort.ts, for one sort-order entry whose column descriptor was
found: resolve both sort values, dispatch on the entry order tag
(ascending compares, descending negates the comparison, the undefined tag
leaves 0), then negate once more when the column has reverseSortOrder. -/
def adjustedCompare (column : GridColumn) (entry : FieldSortOrder) (a b : Row) : Int :=
  let A := getCellSortValue a column
  let B := getCellSortValue b column
  let result : Int :=
    match entry.order with
    | .ascending => compare A B
    | .descending => -compare A B
    | .undef => 0
  if column.reverseSortOrder then -result else result

/-- Embedding of the comparator closure of sort in src/src/sort.ts:
iterate the order entries left to right; an entry whose key matches no
column is skipped; otherwise the adjusted comparison is returned when
nonzero, and the remaining entries decide a tie; an exhausted order gives
0. -/
def rowCompare (columns : List GridColumn) : TableSortOrder → Row → Row → Int
  | [], _, _ => 0
  | entry :: rest, a, b =>
    match columns.find? (fun x => x.key == entry.key) with
    | none => rowCompare columns rest a b
    | some column =>
      let result := adjustedCompare column entry a b
      if result ≠ 0 then result else rowCompare columns rest a b

/-- Stable insertion of an element into a list relative to a JavaScript
style comparator: the element settles immediately before the first
position whose element it does not strictly follow. -/
def insertCmp (cmp : α → α → Int) (x : α) : List α → List α
  | [] => [x]
  | y :: ys => if cmp x y ≤ 0 then x :: y :: ys else y :: insertCmp cmp x ys

/-- Model of Array.prototype.sort with a comparator: a stable sort, here
realised as insertion sort (ECMAScript requires sort to be stable; any
stable sort is observationally the model). -/
def stableSort (cmp : α → α → Int) : List α → List α
  | [] => []
  | x :: xs => insertCmp cmp x (stableSort cmp xs)

/-- Embedding of the effective-order selection inside sort in
src/src/sort.ts: sortOrder when it has entries, else the default sort
order, else the empty order. -/
def effectiveOrder (sortOrder : TableSortOrder) (defaultSortOrder : Option TableSortOrder) : TableSortOrder :=
  if sortOrder.length > 0 then sortOrder else defaultSortOrder.getD []

/-- Embedding of sort from src/src/sort.ts at the level of array
contents: the value returned, which is also the final contents of the
argument array, since rows.sort sorts in place. The source evaluates the
effective order inside the comparator closure on every call; the order is
the same value each time, so it is hoisted here. -/
def sort (rows : List Row) (columns : List GridColumn) (sortOrder : TableSortOrder) (defaultSortOrder : Option TableSortOrder) : List Row :=
  stableSort (fun a b => rowCompare columns (effectiveOrder sortOrder defaultSortOrder) a b) rows

/-- Embedding of cycleColumnSortOrder from the grid module: undefined
advances to ascending, ascending to descending, and descending to
undefined when the grid was configured with a defaultSortOrder (any
array, being truthy) and to ascending otherwise. -/
def cycleColumnSortOrder (hasDefaultSortOrder : Bool) (order : SortOrder) : SortOrder :=
  if order = SortOrder.undef then SortOrder.ascending
  else if order = SortOrder.ascending then SortOrder.descending
  else if hasDefaultSortOrder then SortOrder.undef
  else SortOrder.ascending

/-- Embedding of the sort-order computation of onColumnHeaderClick in the
grid module: deep-copy the current order (value semantics here), find or
synthesize the entry for the clicked column, empty the order when neither
modifier is held and otherwise drop only the clicked column, cycle the
entry, and append it unless its new tag is undefined. -/
def onColumnHeaderClickOrder (sortOrder : TableSortOrder) (columnKey : String) (hasDefaultSortOrder ctrlKey shiftKey : Bool) : TableSortOrder :=
  let entry := (sortOrder.find? (fun x => x.key == columnKey)).getD { key := columnKey, order := SortOrder.undef }
  let newSortOrder := if !ctrlKey && !shiftKey then [] else sortOrder.filter (fun x => x.key != columnKey)
  let entry := { entry with order := cycleColumnSortOrder hasDefaultSortOrder entry.order }
  if entry.order ≠ SortOrder.undef then newSortOrder ++ [entry] else newSortOrder

/-- Derived viewport geometry, the six fields recomputeVisibleArea in the
grid module maintains. -/
structure ViewportState where
  gridHeight : ℚ
  visibleRowCount : ℤ
  firstVisibleRowIndex : ℤ
  lastVisibleRowIndex : ℤ
  totalColumnWidth : ℚ
  totalRowHeight : ℚ

/-- Embedding of the geometry computed by recomputeVisibleArea in the
grid module from its inputs: scroll offset, grid client height, measured
row height, row count and the column list. Math.ceil of a real quotient
is the integer ceiling. -/
def recomputeVisibleArea (scrollTop gridHeight rowHeight : ℚ) (rowCount : ℕ) (columns : List GridColumn) : ViewportState :=
  let newVisibleRowCount : ℤ := ⌈gridHeight / rowHeight⌉
  let newFirstVisibleRowIndex : ℤ := ⌈scrollTop / rowHeight⌉
  { gridHeight := gridHeight
    visibleRowCount := newVisibleRowCount
    firstVisibleRowIndex := newFirstVisibleRowIndex
    lastVisibleRowIndex := newFirstVisibleRowIndex + newVisibleRowCount - 1
    totalColumnWidth := columns.foldl (fun sum x => sum + x.width) 0
    totalRowHeight := (rowCount : ℚ) * rowHeight }

/-- Handle naming one array in the store; distinct handles name distinct
arrays. -/
structure ArrHandle where
  id : ℕ
deriving DecidableEq

/-- Explicit store of arrays addressed by handles, used to model
JavaScript arrays passed by reference and mutated in place. -/
structure Store (α : Type) where
  arrays : List (List α)

/-- Contents of the array a handle names. -/
def Store.read (s : Store α) (r : ArrHandle) : List α :=
  (s.arrays[r.id]?).getD []

/-- In-place replacement of the contents of the array a handle names. -/
def Store.write (s : Store α) (r : ArrHandle) (v : List α) : Store α :=
  ⟨s.arrays.set r.id v⟩

/-- Allocation of a fresh array with the given contents; the returned
handle names an array no prior handle named. -/
def Store.alloc (s : Store α) (v : List α) : Store α × ArrHandle :=
  (⟨s.arrays ++ [v]⟩, ⟨s.arrays.length⟩)

/-- Embedding of a call to sort from src/src/sort.ts at the reference
level: rows.sort mutates the argument array in place to the sorted
contents, and the function returns the very same array reference. -/
def sortCall (s : Store Row) (rowsRef : ArrHandle) (columns : List GridColumn) (sortOrder : TableSortOrder) (defaultSortOrder : Option TableSortOrder) : Store Row × ArrHandle :=
  (s.write rowsRef (sort (s.read rowsRef) columns sortOrder defaultSortOrder), rowsRef)

/-- Embedding of sortRows in the grid module at the reference level: the
spread [...rows] allocates a fresh copy of the grid row array, and sort
is called on that copy, whose handle the grid then holds. -/
def sortRowsCall (s : Store Row) (rowsRef : ArrHandle) (columns : List GridColumn) (sortOrder : TableSortOrder) (defaultSortOrder : Option TableSortOrder) : Store Row × ArrHandle :=
  let p := s.alloc (s.read rowsRef)
  sortCall p.1 p.2 columns sortOrder defaultSortOrder

/-- Embedding of the order handling of onColumnHeaderClick at the
reference level: the JSON stringify and parse round trip deep-copies the
current order into entirely fresh objects, so every later write (the
entry mutation, filter, push) touches fresh storage only; the resulting
order is a freshly allocated array. -/
def onColumnHeaderClickCall (s : Store FieldSortOrder) (orderRef : ArrHandle) (columnKey : String) (hasDefaultSortOrder ctrlKey shiftKey : Bool) : Store FieldSortOrder × ArrHandle :=
  s.alloc (onColumnHeaderClickOrder (s.read orderRef) columnKey hasDefaultSortOrder ctrlKey shiftKey)

/-- Fixture row with key a and value 1, as in the stability example of the
specification. -/
def rowA : Row := [("k", Value.str "a"), ("v", Value.num 1)]

/-- Fixture row with key b and value 1. -/
def rowB : Row := [("k", Value.str "b"), ("v", Value.num 1)]

/-- Fixture row with key c and value 2. -/
def rowC : Row := [("k", Value.str "c"), ("v", Value.num 2)]

/-- Fixture column reading property v. -/
def colV : GridColumn := { key := "v", property := Accessor.propName "v" }

/-- Fixture column reading property v with the reverseSortOrder flag
set. -/
def colVRev : GridColumn := { key := "v", property := Accessor.propName "v", reverseSortOrder := true }

/-- Fixture column displaying property v but sorting by the distinct
property s (absent from the fixture rows, so the raw sort value is
undefined). -/
def colVS : GridColumn := { key := "v", property := Accessor.propName "v", sortValue := some (Accessor.propName "s") }

/-- Fixture column reading the absent property m, whose display value
normalizes to the empty string. -/
def colMissing : GridColumn := { key := "m", property := Accessor.propName "m" }

/-- The entry located or synthesized for a clicked column always carries
the clicked column key, because find? only returns entries matching the
key and the synthesized entry is built from it. -/
theorem findEntry_key (sortOrder : TableSortOrder) (columnKey : String) :
    ((sortOrder.find? (fun x => x.key == columnKey)).getD ⟨columnKey, SortOrder.undef⟩).key = columnKey := by
  cases hf : sortOrder.find? (fun x => x.key == columnKey) with
  | none => rfl
  | some e => simpa using List.find?_some hf

/-- Updating the order field of an entry whose key is k yields the entry
with key k and the new order. -/
theorem fieldSortOrder_update (e : FieldSortOrder) (k : String) (t : SortOrder) (h : e.key = k) :
    { e with order := t } = FieldSortOrder.mk k t := by
  cases e
  simp_all

/-- Closed form of the click handling: the kept prefix is empty without a
modifier and the filtered order with one, and the cycled entry for the
clicked key is appended exactly when its new tag is not undefined. -/
theorem onColumnHeaderClickOrder_eq (sortOrder : TableSortOrder) (columnKey : String)
    (hasDefaultSortOrder ctrlKey shiftKey : Bool) :
    onColumnHeaderClickOrder sortOrder columnKey hasDefaultSortOrder ctrlKey shiftKey
      = (if !ctrlKey && !shiftKey then [] else sortOrder.filter (fun x => x.key != columnKey))
        ++ (if cycleColumnSortOrder hasDefaultSortOrder ((sortOrder.find? (fun x => x.key == columnKey)).getD ⟨columnKey, SortOrder.undef⟩).order = SortOrder.undef
            then []
            else [⟨columnKey, cycleColumnSortOrder hasDefaultSortOrder ((sortOrder.find? (fun x => x.key == columnKey)).getD ⟨columnKey, SortOrder.undef⟩).order⟩]) := by
  have hkey := findEntry_key sortOrder columnKey
  simp only [onColumnHeaderClickOrder]
  by_cases htag : cycleColumnSortOrder hasDefaultSortOrder ((sortOrder.find? (fun x => x.key == columnKey)).getD ⟨columnKey, SortOrder.undef⟩).order = SortOrder.undef
  · simp [htag]
  · simp [htag, fieldSortOrder_update _ _ _ hkey]

/-- Membership in a stable insertion is membership in the inserted
element or the list. -/
theorem mem_insertCmp {cmp : α → α → Int} {x a : α} {l : List α} :
    a ∈ insertCmp cmp x l ↔ a = x ∨ a ∈ l := by
  induction l with
  | nil => simp [insertCmp]
  | cons y ys ih =>
    simp only [insertCmp]
    split
    · simp [List.mem_cons]
    · simp only [List.mem_cons, ih]
      tauto

/-- The stable sort permutes the list, so membership is preserved. -/
theorem mem_stableSort {cmp : α → α → Int} {a : α} {l : List α} :
    a ∈ stableSort cmp l ↔ a ∈ l := by
  induction l with
  | nil => simp [stableSort]
  | cons x xs ih => simp [stableSort, mem_insertCmp, ih]

/-- Inserting an element that ties with every selected element of the
list places it before every selected element, so the selection gains the
element at its front. -/
theorem filter_insertCmp_pos {cmp : α → α → Int} {p : α → Bool} {x : α} {l : List α}
    (hx : p x = true) (h : ∀ y ∈ l, p y = true → cmp x y = 0) :
    (insertCmp cmp x l).filter p = x :: l.filter p := by
  induction l with
  | nil => simp [insertCmp, hx]
  | cons y ys ih =>
    simp only [insertCmp]
    split
    · simp [List.filter_cons, hx]
    · rename_i hcmp
      by_cases hy : p y = true
      · exact absurd (h y (by simp) hy) (by omega)
      · have hy' : p y = false := by simpa using hy
        rw [List.filter_cons, if_neg (by simp [hy']), ih (fun z hz hp => h z (by simp [hz]) hp),
          List.filter_cons, if_neg (by simp [hy'])]

/-- Inserting an unselected element leaves the selection unchanged. -/
theorem filter_insertCmp_neg {cmp : α → α → Int} {p : α → Bool} {x : α} {l : List α}
    (hx : p x = false) :
    (insertCmp cmp x l).filter p = l.filter p := by
  induction l with
  | nil => simp [insertCmp, hx]
  | cons y ys ih =>
    simp only [insertCmp]
    split
    · simp [List.filter_cons, hx]
    · rw [List.filter_cons, List.filter_cons, ih]

/-- Stability of the sort: a selection of pairwise tying elements comes
out of the sort in its original relative order. -/
theorem filter_stableSort {cmp : α → α → Int} {p : α → Bool} {l : List α}
    (h : ∀ a ∈ l, ∀ b ∈ l, p a = true → p b = true → cmp a b = 0) :
    (stableSort cmp l).filter p = l.filter p := by
  induction l with
  | nil => rfl
  | cons x xs ih =>
    have hrest : ∀ a ∈ xs, ∀ b ∈ xs, p a = true → p b = true → cmp a b = 0 :=
      fun a ha b hb => h a (by simp [ha]) b (by simp [hb])
    simp only [stableSort]
    by_cases hx : p x = true
    · have hsub : ∀ y ∈ stableSort cmp xs, p y = true → cmp x y = 0 :=
        fun y hy hp => h x (by simp) y (by simp [mem_stableSort.mp hy]) hx hp
      rw [filter_insertCmp_pos hx hsub, ih hrest, List.filter_cons, if_pos (by simp [hx])]
    · have hx' : p x = false := by simpa using hx
      rw [filter_insertCmp_neg hx', ih hrest, List.filter_cons, if_neg (by simp [hx'])]

/-- An element that never strictly follows anything is inserted at the
front. -/
theorem insertCmp_of_nonpos {cmp : α → α → Int} {x : α} {l : List α}
    (h : ∀ y, cmp x y ≤ 0) :
    insertCmp cmp x l = x :: l := by
  cases l with
  | nil => rfl
  | cons y ys => simp [insertCmp, h y]

/-- A comparator that declares every pair a tie makes the stable sort the
identity. -/
theorem stableSort_of_zero {cmp : α → α → Int} (h : ∀ a b, cmp a b = 0) (l : List α) :
    stableSort cmp l = l := by
  induction l with
  | nil => rfl
  | cons x xs ih =>
    rw [stableSort, ih, insertCmp_of_nonpos (fun y => le_of_eq (h x y))]

/-- An entry with the undefined order tag contributes a zero comparison
whatever the column flags are. -/
theorem adjustedCompare_undef (column : GridColumn) (e : FieldSortOrder) (a b : Row)
    (h : e.order = SortOrder.undef) :
    adjustedCompare column e a b = 0 := by
  simp [adjustedCompare, h]

/-- When every entry of the order contributes a zero adjusted comparison,
the whole comparator returns zero. -/
theorem rowCompare_eq_zero {columns : List GridColumn} {order : TableSortOrder} {a b : Row}
    (h : ∀ e ∈ order, ∀ column, columns.find? (fun x => x.key == e.key) = some column →
        adjustedCompare column e a b = 0) :
    rowCompare columns order a b = 0 := by
  induction order with
  | nil => rfl
  | cons e rest ih =>
    have hrest : ∀ x ∈ rest, ∀ column, columns.find? (fun y => y.key == x.key) = some column →
        adjustedCompare column x a b = 0 :=
      fun x hx => h x (by simp [hx])
    rw [rowCompare]
    cases hf : columns.find? (fun x => x.key == e.key) with
    | none => exact ih hrest
    | some column =>
      have hz := h e (by simp) column hf
      simp only [hz, ne_eq, not_true, if_false, ite_self]
      exact ih hrest

/-- The fold the source uses to total the column widths equals the sum of
the widths. -/
theorem foldl_width_eq (columns : List GridColumn) :
    ∀ init : ℚ, columns.foldl (fun sum x => sum + x.width) init
      = init + (columns.map (fun x => x.width)).sum := by
  induction columns with
  | nil => intro init; simp
  | cons c cs ih =>
    intro init
    rw [List.foldl_cons, ih, List.map_cons, List.sum_cons]
    ring

/-- C1: for every rowHeight > 0, clientHeight >= 0, scrollTop >= 0, row
count and column list, the viewport computation yields visibleRowCount =
ceil(clientHeight / rowHeight), firstVisibleRowIndex = ceil(scrollTop /
rowHeight), lastVisibleRowIndex = firstVisibleRowIndex + visibleRowCount
- 1 (so the window width is exactly visibleRowCount), totalColumnWidth =
the sum of the column widths, and totalRowHeight = rowCount * rowHeight;
in particular with rowHeight = 20 and scrollTop = 1 the first visible row
index is 1, not 0. -/
theorem claim_C1 (scrollTop gridHeight rowHeight : ℚ) (rowCount : ℕ)
    (columns : List GridColumn)
    (hrh : 0 < rowHeight) (hch : 0 ≤ gridHeight) (hst : 0 ≤ scrollTop) :
    (recomputeVisibleArea scrollTop gridHeight rowHeight rowCount columns).visibleRowCount
        = ⌈gridHeight / rowHeight⌉ ∧
    (recomputeVisibleArea scrollTop gridHeight rowHeight rowCount columns).firstVisibleRowIndex
        = ⌈scrollTop / rowHeight⌉ ∧
    (recomputeVisibleArea scrollTop gridHeight rowHeight rowCount columns).lastVisibleRowIndex
        = (recomputeVisibleArea scrollTop gridHeight rowHeight rowCount columns).firstVisibleRowIndex
          + (recomputeVisibleArea scrollTop gridHeight rowHeight rowCount columns).visibleRowCount - 1 ∧
    (recomputeVisibleArea scrollTop gridHeight rowHeight rowCount columns).lastVisibleRowIndex
        - (recomputeVisibleArea scrollTop gridHeight rowHeight rowCount columns).firstVisibleRowIndex + 1
        = (recomputeVisibleArea scrollTop gridHeight rowHeight rowCount columns).visibleRowCount ∧
    (recomputeVisibleArea scrollTop gridHeight rowHeight rowCount columns).totalColumnWidth
        = (columns.map (fun x => x.width)).sum ∧
    (recomputeVisibleArea scrollTop gridHeight rowHeight rowCount columns).totalRowHeight
        = (rowCount : ℚ) * rowHeight ∧
    (recomputeVisibleArea 1 gridHeight 20 rowCount columns).firstVisibleRowIndex = 1 := by
  refine ⟨rfl, rfl, rfl, by simp only [recomputeVisibleArea]; ring, ?_, rfl, ?_⟩
  · simp [recomputeVisibleArea, foldl_width_eq]
  · simp only [recomputeVisibleArea]
    norm_num [Int.ceil_eq_iff]

/-- Witness for C1 at scrollTop 1, clientHeight 100, rowHeight 20. -/
theorem claim_C1_witness :
    (recomputeVisibleArea 1 100 20 5 []).firstVisibleRowIndex = 1 :=
  (claim_C1 1 100 20 5 [] (by norm_num) (by norm_num) (by norm_num)).2.2.2.2.2.2

/-- C2: a click with neither modifier held keeps at most the clicked
column in the resulting order; a modified click removes only the clicked
column and, when the cycled tag is not undefined, appends its entry at
the tail while all other entries keep their relative order; the three
concrete example transitions of the specification follow. -/
theorem claim_C2 (sortOrder : TableSortOrder) (columnKey : String)
    (hasDefaultSortOrder ctrlKey shiftKey : Bool) :
    (ctrlKey = false → shiftKey = false →
      (onColumnHeaderClickOrder sortOrder columnKey hasDefaultSortOrder ctrlKey shiftKey
          = (if cycleColumnSortOrder hasDefaultSortOrder ((sortOrder.find? (fun x => x.key == columnKey)).getD ⟨columnKey, SortOrder.undef⟩).order = SortOrder.undef
             then []
             else [⟨columnKey, cycleColumnSortOrder hasDefaultSortOrder ((sortOrder.find? (fun x => x.key == columnKey)).getD ⟨columnKey, SortOrder.undef⟩).order⟩]) ∧
       ∀ e ∈ onColumnHeaderClickOrder sortOrder columnKey hasDefaultSortOrder ctrlKey shiftKey, e.key = columnKey)) ∧
    ((ctrlKey = true ∨ shiftKey = true) →
      onColumnHeaderClickOrder sortOrder columnKey hasDefaultSortOrder ctrlKey shiftKey
        = sortOrder.filter (fun x => x.key != columnKey)
          ++ (if cycleColumnSortOrder hasDefaultSortOrder ((sortOrder.find? (fun x => x.key == columnKey)).getD ⟨columnKey, SortOrder.undef⟩).order = SortOrder.undef
              then []
              else [⟨columnKey, cycleColumnSortOrder hasDefaultSortOrder ((sortOrder.find? (fun x => x.key == columnKey)).getD ⟨columnKey, SortOrder.undef⟩).order⟩])) ∧
    onColumnHeaderClickOrder [⟨"colA", SortOrder.ascending⟩] "colB" hasDefaultSortOrder false false
      = [⟨"colB", SortOrder.ascending⟩] ∧
    onColumnHeaderClickOrder [⟨"colA", SortOrder.ascending⟩] "colB" hasDefaultSortOrder false true
      = [⟨"colA", SortOrder.ascending⟩, ⟨"colB", SortOrder.ascending⟩] ∧
    onColumnHeaderClickOrder [⟨"colA", SortOrder.ascending⟩, ⟨"colB", SortOrder.ascending⟩] "colA" hasDefaultSortOrder false true
      = [⟨"colB", SortOrder.ascending⟩, ⟨"colA", SortOrder.descending⟩] := by
  refine ⟨?_, ?_, ?_, ?_, ?_⟩
  · intro hc hs
    subst hc; subst hs
    rw [onColumnHeaderClickOrder_eq]
    refine ⟨by simp, ?_⟩
    intro e he
    by_cases htag : cycleColumnSortOrder hasDefaultSortOrder ((sortOrder.find? (fun x => x.key == columnKey)).getD ⟨columnKey, SortOrder.undef⟩).order = SortOrder.undef
    · simp [htag] at he
    · simp [htag] at he
      simp [he]
  · intro h
    rw [onColumnHeaderClickOrder_eq]
    have hmod : (!ctrlKey && !shiftKey) = false := by
      rcases h with h | h <;> simp [h]
    rw [hmod]
    simp
  · cases hasDefaultSortOrder <;> decide
  · cases hasDefaultSortOrder <;> decide
  · cases hasDefaultSortOrder <;> decide

/-- Witness for C2: a plain click on colB from an order holding only
colA ascending replaces the order. -/
theorem claim_C2_witness :
    onColumnHeaderClickOrder [⟨"colA", SortOrder.ascending⟩] "colB" false false false
      = [⟨"colB", SortOrder.ascending⟩] ∧
    onColumnHeaderClickOrder [⟨"colA", SortOrder.ascending⟩] "colB" false false true
      = [⟨"colA", SortOrder.ascending⟩, ⟨"colB", SortOrder.ascending⟩] := by
  constructor
  · have h := ((claim_C2 [⟨"colA", SortOrder.ascending⟩] "colB" false false false).1 rfl rfl).1
    rw [h]; decide
  · have h := (claim_C2 [⟨"colA", SortOrder.ascending⟩] "colB" false false true).2.1 (Or.inr rfl)
    rw [h]; decide

/-- C3: the per-column cycle advances undefined to ascending
unconditionally and ascending to descending; out of descending it goes to
undefined when a default sort order is configured and to ascending
otherwise, so with a default four clicks pass through ascending,
descending, undefined, ascending, and without a default the cycle
alternates between ascending and descending and never returns to
undefined. -/
theorem claim_C3 (hasDefaultSortOrder : Bool) :
    cycleColumnSortOrder hasDefaultSortOrder SortOrder.undef = SortOrder.ascending ∧
    cycleColumnSortOrder hasDefaultSortOrder SortOrder.ascending = SortOrder.descending ∧
    cycleColumnSortOrder true SortOrder.descending = SortOrder.undef ∧
    cycleColumnSortOrder false SortOrder.descending = SortOrder.ascending ∧
    ((cycleColumnSortOrder true)^[1] SortOrder.undef = SortOrder.ascending ∧
     (cycleColumnSortOrder true)^[2] SortOrder.undef = SortOrder.descending ∧
     (cycleColumnSortOrder true)^[3] SortOrder.undef = SortOrder.undef ∧
     (cycleColumnSortOrder true)^[4] SortOrder.undef = SortOrder.ascending) ∧
    ((cycleColumnSortOrder false)^[1] SortOrder.undef = SortOrder.ascending ∧
     (cycleColumnSortOrder false)^[2] SortOrder.undef = SortOrder.descending ∧
     (cycleColumnSortOrder false)^[3] SortOrder.undef = SortOrder.ascending ∧
     (cycleColumnSortOrder false)^[4] SortOrder.undef = SortOrder.descending) ∧
    (∀ n : ℕ, (cycleColumnSortOrder false)^[n + 1] SortOrder.undef ≠ SortOrder.undef) := by
  have step : ∀ s : SortOrder, s ≠ SortOrder.undef →
      cycleColumnSortOrder false s ≠ SortOrder.undef := by
    intro s hs
    cases s
    · decide
    · decide
    · exact absurd rfl hs
  refine ⟨?_, ?_, rfl, rfl, by decide, by decide, ?_⟩
  · cases hasDefaultSortOrder <;> decide
  · cases hasDefaultSortOrder <;> decide
  · intro n
    induction n with
    | zero => decide
    | succ m ih =>
      rw [Function.iterate_succ_apply']
      exact step _ ih

/-- Witness for C3 at the configured-default instance: the first click
advances undefined to ascending. -/
theorem claim_C3_witness :
    cycleColumnSortOrder true SortOrder.undef = SortOrder.ascending :=
  (claim_C3 true).1

/-- C4: the multi-key comparator walks the entries left to right; an
empty order and an all-tying order give 0; an entry whose key matches no
column descriptor is skipped without error; for a found descriptor the
comparison of the resolved sort values is negated when the entry
direction is descending, negated again when the descriptor carries
reverseSortOrder, and the first nonzero adjusted result is returned while
a zero one defers to the remaining entries. -/
theorem claim_C4 (columns : List GridColumn) (entry : FieldSortOrder)
    (rest : TableSortOrder) (a b : Row) :
    rowCompare columns [] a b = 0 ∧
    (columns.find? (fun x => x.key == entry.key) = none →
      rowCompare columns (entry :: rest) a b = rowCompare columns rest a b) ∧
    (∀ column, columns.find? (fun x => x.key == entry.key) = some column →
      (entry.order = SortOrder.ascending →
        adjustedCompare column entry a b
          = (if column.reverseSortOrder
             then -compare (getCellSortValue a column) (getCellSortValue b column)
             else compare (getCellSortValue a column) (getCellSortValue b column))) ∧
      (entry.order = SortOrder.descending →
        adjustedCompare column entry a b
          = (if column.reverseSortOrder
             then compare (getCellSortValue a column) (getCellSortValue b column)
             else -compare (getCellSortValue a column) (getCellSortValue b column))) ∧
      (adjustedCompare column entry a b ≠ 0 →
        rowCompare columns (entry :: rest) a b = adjustedCompare column entry a b) ∧
      (adjustedCompare column entry a b = 0 →
        rowCompare columns (entry :: rest) a b = rowCompare columns rest a b)) ∧
    ((∀ e ∈ (entry :: rest), ∀ column, columns.find? (fun x => x.key == e.key) = some column →
        adjustedCompare column e a b = 0) →
      rowCompare columns (entry :: rest) a b = 0) := by
  refine ⟨rfl, ?_, ?_, rowCompare_eq_zero⟩
  · intro hf
    rw [rowCompare, hf]
  · intro column hf
    refine ⟨?_, ?_, ?_, ?_⟩
    · intro ho
      simp [adjustedCompare, ho]
    · intro ho
      simp [adjustedCompare, ho]
    · intro hne
      rw [rowCompare, hf]
      simp [hne]
    · intro hz
      rw [rowCompare, hf]
      simp [hz]

/-- Witness for C4: a found column with a nonzero adjusted comparison is
returned, and an unknown key is skipped. -/
theorem claim_C4_witness :
    rowCompare [colV] [⟨"v", SortOrder.ascending⟩] rowA rowC
      = adjustedCompare colV ⟨"v", SortOrder.ascending⟩ rowA rowC ∧
    rowCompare [colV] [⟨"zz", SortOrder.ascending⟩] rowA rowC
      = rowCompare [colV] [] rowA rowC := by
  constructor
  · exact ((claim_C4 [colV] ⟨"v", SortOrder.ascending⟩ [] rowA rowC).2.2.1
      colV rfl).2.2.1 (by decide)
  · exact (claim_C4 [colV] ⟨"zz", SortOrder.ascending⟩ [] rowA rowC).2.1 rfl

/-- C5 counterexample: calling sort on the stored array holding rowC then
rowA with an ascending order on column v rewrites that very array to the
sorted contents (so the input array is mutated) and returns the same
array reference, not a new array. -/
theorem claim_C5_counterexample :
    (sortCall ⟨[[rowC, rowA]]⟩ ⟨0⟩ [colV] [⟨"v", SortOrder.ascending⟩] none).1.read ⟨0⟩
        ≠ (⟨[[rowC, rowA]]⟩ : Store Row).read ⟨0⟩ ∧
    (sortCall ⟨[[rowC, rowA]]⟩ ⟨0⟩ [colV] [⟨"v", SortOrder.ascending⟩] none).2 = ⟨0⟩ :=
  ⟨by decide, rfl⟩

/-- C5 amended: sort sorts its argument array in place and returns that
same array; the sortRows wrapper of the grid passes a freshly spread copy
instead, so the original grid row array is left unmutated, the handle the
grid receives is a new array, and that new array holds the sorted
contents of the original. -/
theorem claim_C5_amended (s : Store Row) (rowsRef : ArrHandle)
    (columns : List GridColumn) (sortOrder : TableSortOrder)
    (defaultSortOrder : Option TableSortOrder)
    (h : rowsRef.id < s.arrays.length) :
    (sortRowsCall s rowsRef columns sortOrder defaultSortOrder).1.read rowsRef = s.read rowsRef ∧
    (sortRowsCall s rowsRef columns sortOrder defaultSortOrder).2 ≠ rowsRef ∧
    (sortRowsCall s rowsRef columns sortOrder defaultSortOrder).1.read
        (sortRowsCall s rowsRef columns sortOrder defaultSortOrder).2
      = sort (s.read rowsRef) columns sortOrder defaultSortOrder := by
  simp only [sortRowsCall, sortCall, Store.alloc, Store.write, Store.read]
  refine ⟨?_, ?_, ?_⟩
  · rw [List.getElem?_set_ne (by omega), List.getElem?_append]
    simp [h]
  · obtain ⟨rid⟩ := rowsRef
    intro heq
    injection heq with hid
    have hlt : rid < s.arrays.length := h
    omega
  · rw [List.getElem?_set_eq_of_lt _ (by simp), Option.getD_some,
      List.getElem?_append_right (le_refl _)]
    simp

/-- Witness for C5 amended: the wrapped call on the stored array holding
rowC then rowA leaves that array unchanged. -/
theorem claim_C5_witness :
    (sortRowsCall ⟨[[rowC, rowA]]⟩ ⟨0⟩ [colV] [⟨"v", SortOrder.ascending⟩] none).1.read ⟨0⟩
      = (⟨[[rowC, rowA]]⟩ : Store Row).read ⟨0⟩ :=
  (claim_C5_amended ⟨[[rowC, rowA]]⟩ ⟨0⟩ [colV] [⟨"v", SortOrder.ascending⟩] none (by decide)).1

/-- C6: the effective order is the supplied order when non-empty, else
the default order, else empty; an empty effective order makes sort the
identity on contents; rows whose pairwise comparisons under the effective
order all tie keep their original relative order; and the concrete
ascending sort of the already-ordered example rows returns them
unchanged. -/
theorem claim_C6 (sortOrder : TableSortOrder) (defaultSortOrder : Option TableSortOrder)
    (rows : List Row) (columns : List GridColumn) (p : Row → Bool) :
    effectiveOrder sortOrder defaultSortOrder
        = (if sortOrder = [] then defaultSortOrder.getD [] else sortOrder) ∧
    (effectiveOrder sortOrder defaultSortOrder = [] →
      sort rows columns sortOrder defaultSortOrder = rows) ∧
    ((∀ a ∈ rows, ∀ b ∈ rows, p a = true → p b = true →
        rowCompare columns (effectiveOrder sortOrder defaultSortOrder) a b = 0) →
      (sort rows columns sortOrder defaultSortOrder).filter p = rows.filter p) ∧
    sort [rowA, rowB, rowC] [colV] [⟨"v", SortOrder.ascending⟩] none = [rowA, rowB, rowC] := by
  refine ⟨?_, ?_, ?_, by decide⟩
  · cases sortOrder <;> simp [effectiveOrder]
  · intro heff
    simp only [sort, heff]
    exact stableSort_of_zero (fun a b => rfl) rows
  · intro h
    exact filter_stableSort h

/-- Witness for C6: the two rows with value 1 keep their original
relative order under the ascending sort by v. -/
theorem claim_C6_witness :
    (sort [rowA, rowB, rowC] [colV] [⟨"v", SortOrder.ascending⟩] none).filter
        (fun r => rowGet r "v" == Value.num 1)
      = ([rowA, rowB, rowC].filter (fun r => rowGet r "v" == Value.num 1)) :=
  (claim_C6 [⟨"v", SortOrder.ascending⟩] none [rowA, rowB, rowC] [colV]
    (fun r => rowGet r "v" == Value.num 1)).2.2.1 (by decide)

/-- C7: when both values are strings, compare uses the locale-aware
case-insensitive base-sensitivity ordering, under which Apple and apple
tie and Apple orders before Banana; when not both are strings, compare
returns -1 when the relational operator puts a below b, 1 when it puts a
above b, and 0 otherwise. -/
theorem claim_C7 (a b : Value) (s t : String) :
    compare (Value.str s) (Value.str t) = localeCompareEnBase s t ∧
    compare (Value.str "Apple") (Value.str "apple") = 0 ∧
    compare (Value.str "apple") (Value.str "Apple") = 0 ∧
    compare (Value.str "Apple") (Value.str "Banana") = -1 ∧
    (¬(a.isStr = true ∧ b.isStr = true) →
      compare a b = (if jsLt a b then -1 else if jsGt a b then 1 else 0)) := by
  refine ⟨rfl, by decide, by decide, by decide, ?_⟩
  intro h
  cases a <;> cases b <;> first
    | rfl
    | exact absurd ⟨rfl, rfl⟩ h

/-- Witness for C7: two integer numerics follow the relational-operator
path. -/
theorem claim_C7_witness :
    compare (Value.num 1) (Value.num 2) = -1 := by
  have h := (claim_C7 (Value.num 1) (Value.num 2) "" "").2.2.2.2 (by decide)
  rw [h]
  decide

/-- C8: the display-value resolution substitutes the empty string exactly
when the accessed value is null or undefined, while the sort-value
resolution returns the raw result of a distinct sort-value accessor
as-is, and falls back to the display-value resolution only when no
distinct sort-value accessor exists. -/
theorem claim_C8 (row : Row) (column : GridColumn) (f : Accessor) :
    (applyAccessor column.property row = Value.null ∨ applyAccessor column.property row = Value.undef →
      getCellValue row column = Value.str "") ∧
    (applyAccessor column.property row ≠ Value.null → applyAccessor column.property row ≠ Value.undef →
      getCellValue row column = applyAccessor column.property row) ∧
    (column.sortValue = some f →
      getCellSortValue row column = applyAccessor f row) ∧
    (column.sortValue = none →
      getCellSortValue row column = getCellValue row column) := by
  refine ⟨?_, ?_, ?_, ?_⟩
  · intro h
    simp [getCellValue, h]
  · intro h1 h2
    simp [getCellValue, h1, h2]
  · intro h
    simp [getCellSortValue, h]
  · intro h
    simp [getCellSortValue, h]

/-- Witness for C8: the absent property m displays as the empty string,
and the distinct sort accessor for property s returns its raw undefined
result without substitution. -/
theorem claim_C8_witness :
    getCellValue rowA colMissing = Value.str "" ∧
    getCellSortValue rowA colVS = applyAccessor (Accessor.propName "s") rowA ∧
    getCellValue rowA colV = applyAccessor colV.property rowA :=
  ⟨(claim_C8 rowA colMissing (Accessor.propName "s")).1 (Or.inr rfl),
   (claim_C8 rowA colVS (Accessor.propName "s")).2.2.1 rfl,
   (claim_C8 rowA colV (Accessor.propName "s")).2.1 (by decide) (by decide)⟩

/-- C9: handling a column-header click leaves the previous sort-order
array unchanged in the store (same entries in the same sequence), and the
order the grid ends up holding is a different, freshly allocated
array. -/
theorem claim_C9 (s : Store FieldSortOrder) (orderRef : ArrHandle) (columnKey : String)
    (hasDefaultSortOrder ctrlKey shiftKey : Bool)
    (h : orderRef.id < s.arrays.length) :
    (onColumnHeaderClickCall s orderRef columnKey hasDefaultSortOrder ctrlKey shiftKey).1.read orderRef
        = s.read orderRef ∧
    (onColumnHeaderClickCall s orderRef columnKey hasDefaultSortOrder ctrlKey shiftKey).2 ≠ orderRef := by
  simp only [onColumnHeaderClickCall, Store.alloc, Store.read]
  refine ⟨?_, ?_⟩
  · rw [List.getElem?_append]
    simp [h]
  · obtain ⟨rid⟩ := orderRef
    intro heq
    injection heq with hid
    have hlt : rid < s.arrays.length := h
    omega

/-- Witness for C9: a modified click on colB with an order array holding
colA ascending leaves that stored array unchanged. -/
theorem claim_C9_witness :
    (onColumnHeaderClickCall ⟨[[⟨"colA", SortOrder.ascending⟩]]⟩ ⟨0⟩ "colB" false false true).1.read ⟨0⟩
      = (⟨[[⟨"colA", SortOrder.ascending⟩]]⟩ : Store FieldSortOrder).read ⟨0⟩ :=
  (claim_C9 ⟨[[⟨"colA", SortOrder.ascending⟩]]⟩ ⟨0⟩ "colB" false false true (by decide)).1

/-- C10: an entry whose order tag is undefined contributes a zero
comparison for every pair even when the column carries reverseSortOrder,
comparison proceeds past it to the next entry, and a non-empty sort order
consisting only of undefined-tag entries leaves the rows in their
original relative order. -/
theorem claim_C10 (columns : List GridColumn) (column : GridColumn) (e : FieldSortOrder)
    (rest order : TableSortOrder) (defaultSortOrder : Option TableSortOrder)
    (rows : List Row) (a b : Row) :
    (e.order = SortOrder.undef → adjustedCompare column e a b = 0) ∧
    (e.order = SortOrder.undef →
      rowCompare columns (e :: rest) a b = rowCompare columns rest a b) ∧
    ((∀ x ∈ order, x.order = SortOrder.undef) → order ≠ [] →
      sort rows columns order defaultSortOrder = rows) := by
  refine ⟨adjustedCompare_undef column e a b, ?_, ?_⟩
  · intro ho
    rw [rowCompare]
    cases hf : columns.find? (fun x => x.key == e.key) with
    | none => rfl
    | some c =>
      simp [adjustedCompare_undef c e a b ho]
  · intro hall hne
    have heff : effectiveOrder order defaultSortOrder = order := by
      cases order with
      | nil => exact absurd rfl hne
      | cons x xs => simp [effectiveOrder]
    simp only [sort, heff]
    refine stableSort_of_zero (fun x y => ?_) rows
    exact rowCompare_eq_zero
      (fun ent hent c _ => adjustedCompare_undef c ent x y (hall ent hent))

/-- Witness for C10: a reverse-flagged column still contributes zero for
an undefined-tag entry, and an order of only undefined-tag entries keeps
the rows as given. -/
theorem claim_C10_witness :
    adjustedCompare colVRev ⟨"v", SortOrder.undef⟩ rowA rowC = 0 ∧
    sort [rowC, rowA] [colVRev] [⟨"v", SortOrder.undef⟩] none = [rowC, rowA] :=
  ⟨(claim_C10 [colVRev] colVRev ⟨"v", SortOrder.undef⟩ [] [⟨"v", SortOrder.undef⟩]
      none [rowC, rowA] rowA rowC).1 rfl,
   (claim_C10 [colVRev] colVRev ⟨"v", SortOrder.undef⟩ [] [⟨"v", SortOrder.undef⟩]
      none [rowC, rowA] rowA rowC).2.2 (by decide) (by decide)⟩

end DataGrid
